import Mathlib

/-!
Verification of the connection-handling and state-broadcast core of a
multiplayer position-synchronization server (`server.py`).

The embedding models the `Server` object's mutable fields `self.clients`
(a Python list of sockets, here `List Conn`) and `self.players` (a Python
dict keyed by socket, here an insertion-ordered association list, matching
Python 3 dict semantics: assigning to an existing key updates it in place,
assigning a fresh key appends).  Sockets are identified by natural numbers;
socket I/O is modelled by an environment function `ok : Conn → Bool`
saying whether a `sendall` to that socket succeeds.  Each operation returns
the new state together with the list of successful sends `(conn, message)`
and the list of sockets it closed.
-/

namespace NetGame

/-- A client socket, identified by a number (Python socket objects compare
by identity; distinct accepted sockets are distinct). -/
abbrev Conn := Nat

/-- The per-connection player record `{"name": ..., "x": ..., "y": ...}`
stored in `self.players`.  Coordinates are unbounded Python ints. -/
structure Player where
  name : String
  x : Int
  y : Int
deriving Repr, DecidableEq

/-- The server's registry state: `self.clients` (in list order) and
`self.players` (insertion-ordered dict as an association list). -/
structure SState where
  clients : List Conn
  players : List (Conn × Player)
deriving Repr, DecidableEq

/-- Result of one server operation: the new registry state, the successful
sends performed (socket, decoded message), and the sockets closed. -/
structure BResult where
  st : SState
  sends : List (Conn × String)
  closed : List Conn
deriving Repr, DecidableEq

/-! ### Python dict operations on the association list -/

/-- Python `self.players[c]` lookup (`c in self.players` ↔ result is `some`). -/
def lookupP : List (Conn × Player) → Conn → Option Player
  | [], _ => none
  | kv :: rest, c => if kv.1 = c then some kv.2 else lookupP rest c

/-- Python `self.players[c] = p`: update in place if the key exists, else append
(Python 3 dicts preserve insertion order). -/
def dictSet : List (Conn × Player) → Conn → Player → List (Conn × Player)
  | [], c, p => [(c, p)]
  | kv :: rest, c, p =>
      if kv.1 = c then (c, p) :: rest else kv :: dictSet rest c p

/-- Python `del self.players[c]` and the removal half of `self.players.pop(c, None)`. -/
def removeKey (ps : List (Conn × Player)) (c : Conn) : List (Conn × Player) :=
  ps.filter (fun kv => kv.1 != c)

/-! ### Python string helpers

`str.strip()` and `int(str)` restricted to ASCII text (all protocol
traffic in the claims is ASCII). -/

/-- ASCII whitespace as stripped by Python `str.strip()`. -/
def pyWS (ch : Char) : Bool :=
  ch == ' ' || ch == '\t' || ch == '\n' || ch == '\r' || ch == '\x0b' || ch == '\x0c'

/-- Python `str.strip()` (ASCII whitespace). -/
def pyStrip (s : String) : String :=
  String.mk (((s.toList.dropWhile pyWS).reverse.dropWhile pyWS).reverse)

/-- Digit-run validity for Python `int(str)`: nonempty, decimal digits,
with single underscores allowed only between digits. -/
def pyDigitsOk : List Char → Bool
  | [] => false
  | [ch] => ch.isDigit
  | ch :: '_' :: rest => ch.isDigit && pyDigitsOk rest
  | ch :: rest => ch.isDigit && pyDigitsOk rest

/-- Numeric value of a valid digit run (underscores skipped). -/
def pyDigitsVal (l : List Char) : Nat :=
  (l.filter (fun ch => ch != '_')).foldl (fun a ch => 10 * a + (ch.toNat - 48)) 0

/-- Comma split on the character list: split at every comma, keeping
empty fields (`"a,,b"` gives three fields, `""` gives one empty field). -/
def splitComma : List Char → List (List Char)
  | [] => [[]]
  | ',' :: rest => [] :: splitComma rest
  | ch :: rest =>
      match splitComma rest with
      | [] => [[ch]]
      | w :: ws => (ch :: w) :: ws

/-- Python `data.split(",")`. -/
def pySplit (data : String) : List String :=
  (splitComma data.toList).map String.mk

/-- Python `int(str)`: strips surrounding whitespace, allows one leading
sign, then a digit run; `none` models the `ValueError` caught by the
server's `try`/`except`. -/
def pyInt (s : String) : Option Int :=
  match (pyStrip s).toList with
  | '+' :: rest => if pyDigitsOk rest then some (Int.ofNat (pyDigitsVal rest)) else none
  | '-' :: rest => if pyDigitsOk rest then some (-Int.ofNat (pyDigitsVal rest)) else none
  | t => if pyDigitsOk t then some (Int.ofNat (pyDigitsVal t)) else none

/-! ### `Server.broadcast`

```
with self.lock:
    for client in self.clients[:]:
        if client != exclude_socket:
            try:
                client.sendall(message.encode("utf-8"))
            except Exception:
                self.clients.remove(client)
                if client in self.players:
                    del self.players[client]
                client.close()
```
The loop walks the snapshot `self.clients[:]` while failures mutate the
live state, so the recursion carries both the remaining snapshot and the
current state. -/
def broadcastGo (msg : String) (excl : Option Conn) (ok : Conn → Bool) :
    List Conn → SState → BResult
  | [], s => { st := s, sends := [], closed := [] }
  | cl :: rest, s =>
      if some cl == excl then
        broadcastGo msg excl ok rest s
      else if ok cl then
        let r := broadcastGo msg excl ok rest s
        { st := r.st, sends := (cl, msg) :: r.sends, closed := r.closed }
      else
        let s2 : SState :=
          { clients := s.clients.erase cl, players := removeKey s.players cl }
        let r := broadcastGo msg excl ok rest s2
        { st := r.st, sends := r.sends, closed := cl :: r.closed }

/-- The full `Server.broadcast(message, exclude_socket)`. -/
def broadcast (s : SState) (msg : String) (excl : Option Conn) (ok : Conn → Bool) :
    BResult :=
  broadcastGo msg excl ok s.clients s

/-- The `UPDATE` payload:
`";".join(f"{info['name']},{info['x']},{info['y']}" for info in self.players.values())`. -/
def serializePlayers (ps : List (Conn × Player)) : String :=
  String.intercalate ";"
    (ps.map (fun kv => kv.2.name ++ "," ++ toString kv.2.x ++ "," ++ toString kv.2.y))

/-! ### `Server.handle_client` loop body

One iteration of the read loop, after the `if not data: break` guard:
`parts = data.split(",")`, then the `JOIN`/`MOVE` dispatch.  Malformed
input falls through to `continue`, returning the state unchanged with no
sends. -/
def handleLine (s : SState) (c : Conn) (data : String) (ok : Conn → Bool) : BResult :=
  let parts := pySplit data
  if parts.headD "" == "JOIN" && parts.length == 2 then
    let name := pyStrip (parts.getD 1 "")
    let s1 : SState := { s with players := dictSet s.players c ⟨name, 0, 0⟩ }
    broadcast s1 ("JOINED," ++ name) none ok
  else if parts.headD "" == "MOVE" && parts.length == 4 then
    match pyInt (parts.getD 2 ""), pyInt (parts.getD 3 "") with
    | some x, some y =>
        let s1 : SState :=
          { s with players := dictSet s.players c ⟨parts.getD 1 "", x, y⟩ }
        broadcast s1 ("UPDATE;" ++ serializePlayers s1.players) none ok
    | _, _ => { st := s, sends := [], closed := [] }
  else { st := s, sends := [], closed := [] }

/-- The `finally` block of `handle_client`: remove the connection from
`self.clients` (no-op when absent), pop its player entry, close the
socket, and if a player entry existed broadcast `LEFT,<name>` to the
remaining connections. -/
def teardown (s : SState) (c : Conn) (ok : Conn → Bool) : BResult :=
  let s1 : SState := { clients := s.clients.erase c, players := removeKey s.players c }
  match lookupP s.players c with
  | some p =>
      let r := broadcast s1 ("LEFT," ++ p.name) none ok
      { st := r.st, sends := r.sends, closed := c :: r.closed }
  | none => { st := s1, sends := [], closed := [c] }

/-- The accept loop's registration of a new connection:
`self.clients.append(client_socket)`. -/
def acceptConn (s : SState) (c : Conn) : SState :=
  { clients := s.clients ++ [c], players := s.players }

/-- An environment in which every `sendall` succeeds. -/
def alwaysOk : Conn → Bool := fun _ => true

/-- An environment in which only the `sendall`s to socket `2` fail. -/
def failTwo : Conn → Bool := fun cl => cl != 2

/-! ### Helper lemmas on the dict operations -/

theorem lookupP_dictSet_self (ps : List (Conn × Player)) (c : Conn) (p : Player) :
    lookupP (dictSet ps c p) c = some p := by
  induction ps with
  | nil => simp [dictSet, lookupP]
  | cons kv rest ih =>
      by_cases h : kv.1 = c
      · simp [dictSet, h, lookupP]
      · simp [dictSet, h, lookupP, ih]

theorem lookupP_dictSet_ne (ps : List (Conn × Player)) (c k : Conn) (p : Player)
    (h : k ≠ c) : lookupP (dictSet ps c p) k = lookupP ps k := by
  have hck : ¬c = k := fun hh => h hh.symm
  induction ps with
  | nil => simp [dictSet, lookupP, hck]
  | cons kv rest ih =>
      by_cases hk : kv.1 = c
      · simp [dictSet, lookupP, hk, hck]
      · simp [dictSet, hk, lookupP, ih]

theorem dictSet_eq_of_lookup (ps : List (Conn × Player)) (c : Conn) (p : Player)
    (h : lookupP ps c = some p) : dictSet ps c p = ps := by
  induction ps with
  | nil => simp [lookupP] at h
  | cons kv rest ih =>
      by_cases hk : kv.1 = c
      · rw [lookupP, if_pos hk] at h
        have hp : kv.2 = p := by injection h
        rw [show dictSet (kv :: rest) c p = (c, p) :: rest from by simp [dictSet, hk]]
        rw [← hk, ← hp]
      · rw [lookupP, if_neg hk] at h
        simp [dictSet, hk, ih h]

theorem mem_dictSet (ps : List (Conn × Player)) (c : Conn) (p : Player)
    (kv : Conn × Player) (h : kv ∈ dictSet ps c p) : kv.1 = c ∨ kv ∈ ps := by
  induction ps with
  | nil =>
      simp [dictSet] at h
      simp [h]
  | cons hd rest ih =>
      by_cases hk : hd.1 = c
      · simp [dictSet, hk] at h
        rcases h with h | h
        · simp [h]
        · exact Or.inr (List.mem_cons_of_mem _ h)
      · simp [dictSet, hk] at h
        rcases h with h | h
        · exact Or.inr (by simp [h])
        · rcases ih h with h2 | h2
          · exact Or.inl h2
          · exact Or.inr (List.mem_cons_of_mem _ h2)

theorem keys_dictSet_mem (ps : List (Conn × Player)) (c : Conn) (p : Player)
    (h : c ∈ ps.map Prod.fst) :
    (dictSet ps c p).map Prod.fst = ps.map Prod.fst := by
  induction ps with
  | nil => simp at h
  | cons kv rest ih =>
      by_cases hk : kv.1 = c
      · simp [dictSet, hk]
      · rw [List.map_cons, List.mem_cons] at h
        rcases h with h | h
        · exact absurd h.symm hk
        · simp [dictSet, hk, ih h]

theorem keys_dictSet_not_mem (ps : List (Conn × Player)) (c : Conn) (p : Player)
    (h : c ∉ ps.map Prod.fst) :
    (dictSet ps c p).map Prod.fst = ps.map Prod.fst ++ [c] := by
  induction ps with
  | nil => simp [dictSet]
  | cons kv rest ih =>
      rw [List.map_cons, List.mem_cons] at h
      push_neg at h
      have hk : kv.1 ≠ c := fun hh => h.1 hh.symm
      simp [dictSet, hk, ih h.2]

theorem lookupP_mem_keys (ps : List (Conn × Player)) (c : Conn) (p : Player)
    (h : lookupP ps c = some p) : c ∈ ps.map Prod.fst := by
  induction ps with
  | nil => simp [lookupP] at h
  | cons kv rest ih =>
      by_cases hk : kv.1 = c
      · simp [List.map_cons, hk]
      · rw [lookupP, if_neg hk] at h
        rw [List.map_cons]
        exact List.mem_cons_of_mem _ (ih h)

theorem lookupP_removeKey (ps : List (Conn × Player)) (a k : Conn) :
    lookupP (removeKey ps a) k = if k = a then none else lookupP ps k := by
  induction ps with
  | nil => simp [removeKey, lookupP]
  | cons kv rest ih =>
      by_cases hk : kv.1 = a
      · have hb : (kv.1 != a) = false := by simp [hk]
        have hr : removeKey (kv :: rest) a = removeKey rest a := by
          simp [removeKey, List.filter_cons, hb]
        rw [hr, ih]
        by_cases hka : k = a
        · simp [hka]
        · have hkv : ¬kv.1 = k := by rw [hk]; exact fun hh => hka hh.symm
          simp [hka, lookupP, hkv]
      · have hb : (kv.1 != a) = true := by simp [hk]
        have hr : removeKey (kv :: rest) a = kv :: removeKey rest a := by
          simp [removeKey, List.filter_cons, hb]
        rw [hr]
        by_cases hkk : kv.1 = k
        · have hka : ¬k = a := fun hh => hk (hkk.trans hh)
          simp [lookupP, hkk, hka]
        · simp [lookupP, hkk, ih]

/-! ### Helper lemmas on `broadcast` -/

theorem broadcastGo_all_ok (msg : String) (excl : Option Conn) (ok : Conn → Bool)
    (hok : ∀ cl, ok cl = true) (l : List Conn) (s : SState) :
    broadcastGo msg excl ok l s =
      ⟨s, (l.filter (fun cl => some cl != excl)).map (fun cl => (cl, msg)), []⟩ := by
  induction l generalizing s with
  | nil => simp [broadcastGo]
  | cons cl rest ih =>
      by_cases h : (some cl == excl) = true
      · have hb : (some cl != excl) = false := by simp [bne, h]
        simp [broadcastGo, h, List.filter_cons, hb, ih]
      · have h2 : (some cl == excl) = false := by simpa using h
        have hb : (some cl != excl) = true := by simp [bne, h2]
        simp [broadcastGo, h2, hok cl, List.filter_cons, hb, ih]

theorem broadcast_none_ok (s : SState) (msg : String) (ok : Conn → Bool)
    (hok : ∀ cl, ok cl = true) :
    broadcast s msg none ok = ⟨s, s.clients.map (fun cl => (cl, msg)), []⟩ := by
  rw [broadcast, broadcastGo_all_ok msg none ok hok]
  have hf : s.clients.filter (fun cl => some cl != (none : Option Conn)) = s.clients :=
    List.filter_eq_self.mpr (fun a _ => rfl)
  rw [hf]

/-! ### Helper lemmas on `handleLine` -/

theorem handleLine_join (s : SState) (c : Conn) (data raw : String) (ok : Conn → Bool)
    (hsplit : pySplit data = ["JOIN", raw]) :
    handleLine s c data ok =
      broadcast { s with players := dictSet s.players c ⟨pyStrip raw, 0, 0⟩ }
        ("JOINED," ++ pyStrip raw) none ok := by
  rw [handleLine]
  simp [hsplit]

theorem handleLine_move (s : SState) (c : Conn) (data nm xs ys : String) (x y : Int)
    (ok : Conn → Bool) (hsplit : pySplit data = ["MOVE", nm, xs, ys])
    (hx : pyInt xs = some x) (hy : pyInt ys = some y) :
    handleLine s c data ok =
      broadcast { s with players := dictSet s.players c ⟨nm, x, y⟩ }
        ("UPDATE;" ++ serializePlayers (dictSet s.players c ⟨nm, x, y⟩)) none ok := by
  rw [handleLine]
  simp [hsplit, hx, hy]

theorem handleLine_noop (s : SState) (c : Conn) (data : String) (ok : Conn → Bool)
    (hj : (((pySplit data).headD "" == "JOIN") && ((pySplit data).length == 2)) = false)
    (hm : (((pySplit data).headD "" == "MOVE") && ((pySplit data).length == 4)) = true →
      pyInt ((pySplit data).getD 2 "") = none ∨ pyInt ((pySplit data).getD 3 "") = none) :
    handleLine s c data ok = ⟨s, [], []⟩ := by
  rw [handleLine]
  simp only [hj, Bool.false_eq_true, if_false]
  by_cases h : (((pySplit data).headD "" == "MOVE") && ((pySplit data).length == 4)) = true
  · simp only [h, if_true]
    rcases hm h with h2 | h2
    · rw [h2]
    · rw [h2]
      cases pyInt ((pySplit data).getD 2 "") <;> rfl
  · have h3 : (((pySplit data).headD "" == "MOVE") && ((pySplit data).length == 4)) = false := by
      simpa using h
    simp only [h3, Bool.false_eq_true, if_false]

theorem pair_beq_same_snd (a b : Conn) (m : String) :
    ((a, m) == (b, m)) = (a == b) := by
  show (a == b && m == m) = (a == b)
  simp

theorem count_pair_map (l : List Conn) (m : String) (cl : Conn) :
    (l.map (fun k => (k, m))).count (cl, m) = l.count cl := by
  induction l with
  | nil => rfl
  | cons a t ih =>
      rw [List.map_cons, List.count_cons, List.count_cons, ih, pair_beq_same_snd]

theorem count_nodup_eq_one (l : List Conn) (cl : Conn) (hnd : l.Nodup)
    (hcl : cl ∈ l) : l.count cl = 1 := by
  induction l with
  | nil => cases hcl
  | cons a t ih =>
      rcases List.mem_cons.mp hcl with rfl | h
      · rw [List.count_cons_self, List.count_eq_zero_of_not_mem (List.nodup_cons.mp hnd).1]
      · have hna : cl ≠ a := fun hh => (List.nodup_cons.mp hnd).1 (hh ▸ h)
        rw [List.count_cons_of_ne hna, ih (List.nodup_cons.mp hnd).2 h]

/-- Every `handleLine` is either a silent no-op or "store one player entry
for `c`, then broadcast one message with no exclusion". -/
theorem handleLine_shape (s : SState) (c : Conn) (data : String) (ok : Conn → Bool) :
    handleLine s c data ok = { st := s, sends := [], closed := [] } ∨
    ∃ p msg, handleLine s c data ok =
      broadcast { s with players := dictSet s.players c p } msg none ok := by
  rw [handleLine]
  split
  · exact Or.inr ⟨_, _, rfl⟩
  · split
    · split
      · exact Or.inr ⟨_, _, rfl⟩
      · exact Or.inl rfl
    · exact Or.inl rfl

/-- C1: a received line splitting as `MOVE,<name>,<x>,<y>` (exactly three
arguments after the tag) with both coordinates parsing as integers sets the
player entry keyed by `c` to `{name, x, y}` — creating it if absent, with
no requirement that `c` ever sent `JOIN` — and then (all sends succeeding)
broadcasts `UPDATE;` followed by every known player serialized as
`name,x,y` joined by `;`, to every connection with no exclusion. -/
theorem C1_move_updates_and_broadcasts (s : SState) (c : Conn)
    (data nm xs ys : String) (x y : Int) (ok : Conn → Bool)
    (hsplit : pySplit data = ["MOVE", nm, xs, ys])
    (hx : pyInt xs = some x) (hy : pyInt ys = some y)
    (hok : ∀ cl, ok cl = true) :
    handleLine s c data ok =
      { st := { clients := s.clients, players := dictSet s.players c ⟨nm, x, y⟩ },
        sends := s.clients.map
          (fun cl => (cl, "UPDATE;" ++ serializePlayers (dictSet s.players c ⟨nm, x, y⟩))),
        closed := [] } ∧
    lookupP (dictSet s.players c ⟨nm, x, y⟩) c = some ⟨nm, x, y⟩ := by
  constructor
  · rw [handleLine_move s c data nm xs ys x y ok hsplit hx hy,
      broadcast_none_ok _ _ ok hok]
  · exact lookupP_dictSet_self _ _ _

/-- Witness for C1: a connection that never joined sends `MOVE,Bob,3,-4`;
its entry is created and both clients receive the full `UPDATE` payload. -/
theorem C1_witness :
    handleLine ⟨[1, 2], [(1, ⟨"Al", 0, 0⟩)]⟩ 2 "MOVE,Bob,3,-4" alwaysOk =
      { st := ⟨[1, 2], [(1, ⟨"Al", 0, 0⟩), (2, ⟨"Bob", 3, -4⟩)]⟩,
        sends := [(1, "UPDATE;Al,0,0;Bob,3,-4"), (2, "UPDATE;Al,0,0;Bob,3,-4")],
        closed := [] } ∧
    lookupP (dictSet [(1, ⟨"Al", 0, 0⟩)] 2 ⟨"Bob", 3, -4⟩) 2 = some ⟨"Bob", 3, -4⟩ :=
  C1_move_updates_and_broadcasts ⟨[1, 2], [(1, ⟨"Al", 0, 0⟩)]⟩ 2 "MOVE,Bob,3,-4"
    "Bob" "3" "-4" 3 (-4) alwaysOk (by decide) (by decide) (by decide) (fun _ => rfl)

/-- C2: a received line splitting as `JOIN,<name>` (exactly one argument
after the tag) sets `c`'s entry to the whitespace-stripped name at (0, 0)
and (all sends succeeding) broadcasts `JOINED,<name>` to every connected
client including the sender, exactly once per client. -/
theorem C2_join_registers_and_notifies (s : SState) (c : Conn) (data raw : String)
    (ok : Conn → Bool) (hsplit : pySplit data = ["JOIN", raw])
    (hok : ∀ cl, ok cl = true) (hnd : s.clients.Nodup) :
    handleLine s c data ok =
      { st := { clients := s.clients, players := dictSet s.players c ⟨pyStrip raw, 0, 0⟩ },
        sends := s.clients.map (fun cl => (cl, "JOINED," ++ pyStrip raw)),
        closed := [] } ∧
    ∀ cl ∈ s.clients,
      (s.clients.map (fun k => (k, "JOINED," ++ pyStrip raw))).count
        (cl, "JOINED," ++ pyStrip raw) = 1 := by
  constructor
  · rw [handleLine_join s c data raw ok hsplit, broadcast_none_ok _ _ ok hok]
  · intro cl hcl
    rw [count_pair_map, count_nodup_eq_one s.clients cl hnd hcl]

/-- Witness for C2: `JOIN, Al \n` registers `Al` at (0,0); both connected
clients, the sender included, get exactly one `JOINED,Al`. -/
theorem C2_witness :
    (handleLine ⟨[1, 2], []⟩ 2 "JOIN, Al \n" alwaysOk =
      { st := ⟨[1, 2], [(2, ⟨"Al", 0, 0⟩)]⟩,
        sends := [(1, "JOINED,Al"), (2, "JOINED,Al")],
        closed := [] }) ∧
    ([(1, ("JOINED,Al" : String)), (2, "JOINED,Al")].count (2, "JOINED,Al") = 1) := by
  have h := C2_join_registers_and_notifies ⟨[1, 2], []⟩ 2 "JOIN, Al \n" " Al \n"
    alwaysOk (by decide) (fun _ => rfl) (by decide)
  exact ⟨h.1, h.2 2 (by decide)⟩

/-- C5: a received (nonempty) line that is not a well-formed command —
first token neither `JOIN` nor `MOVE`, wrong argument count, or `MOVE`
coordinates failing integer parsing (including `x` parsing while `y` does
not) — leaves the connection set and player table unchanged, broadcasts
nothing, sends no error, and the connection stays usable: any later line
is handled exactly as if the malformed one had never arrived. -/
theorem C5_malformed_silently_discarded (s : SState) (c : Conn) (data : String)
    (ok : Conn → Bool) (hne : data ≠ "")
    (hj : (((pySplit data).headD "" == "JOIN") && ((pySplit data).length == 2)) = false)
    (hm : (((pySplit data).headD "" == "MOVE") && ((pySplit data).length == 4)) = true →
      pyInt ((pySplit data).getD 2 "") = none ∨ pyInt ((pySplit data).getD 3 "") = none) :
    handleLine s c data ok = { st := s, sends := [], closed := [] } ∧
    ∀ d2 ok2, handleLine (handleLine s c data ok).st c d2 ok2 = handleLine s c d2 ok2 := by
  have h := handleLine_noop s c data ok hj hm
  exact ⟨h, fun d2 ok2 => by rw [h]⟩

/-- Witness for C5: `MOVE,Bob,abc,20` (second coordinate fine, first not an
integer) leaves the registry untouched and emits nothing. -/
theorem C5_witness :
    handleLine ⟨[3], [(3, ⟨"Bob", 10, 20⟩)]⟩ 3 "MOVE,Bob,abc,20" alwaysOk =
      { st := ⟨[3], [(3, ⟨"Bob", 10, 20⟩)]⟩, sends := [], closed := [] } :=
  (C5_malformed_silently_discarded ⟨[3], [(3, ⟨"Bob", 10, 20⟩)]⟩ 3 "MOVE,Bob,abc,20"
    alwaysOk (by decide) (by decide) (by decide)).1

/-- C9: when every per-connection send succeeds, a broadcast leaves the
registry state completely unchanged (and closes nothing); and a line
handled for connection `c` — `JOIN`, `MOVE` or malformed — leaves the
connection set unchanged and every player entry keyed by a connection
other than `c` unchanged. -/
theorem C9_frame_conditions (s : SState) (ok : Conn → Bool)
    (hok : ∀ cl, ok cl = true) :
    (∀ msg excl, (broadcast s msg excl ok).st = s ∧ (broadcast s msg excl ok).closed = []) ∧
    (∀ c data, (handleLine s c data ok).st.clients = s.clients ∧
      ∀ k, k ≠ c → lookupP (handleLine s c data ok).st.players k = lookupP s.players k) := by
  constructor
  · intro msg excl
    rw [broadcast, broadcastGo_all_ok msg excl ok hok]
    exact ⟨rfl, rfl⟩
  · intro c data
    rcases handleLine_shape s c data ok with h | ⟨p, msg, h⟩
    · rw [h]
      exact ⟨rfl, fun k _ => rfl⟩
    · rw [h, broadcast_none_ok _ _ ok hok]
      exact ⟨rfl, fun k hk => lookupP_dictSet_ne _ _ _ _ hk⟩

/-- Witness for C9: broadcasting to two healthy clients changes nothing,
and a `MOVE` from connection 2 leaves connection 1's entry intact. -/
theorem C9_witness :
    ((broadcast ⟨[1, 2], [(1, ⟨"Al", 5, 6⟩)]⟩ "hello" none alwaysOk).st =
      ⟨[1, 2], [(1, ⟨"Al", 5, 6⟩)]⟩) ∧
    lookupP (handleLine ⟨[1, 2], [(1, ⟨"Al", 5, 6⟩)]⟩ 2 "MOVE,Bob,3,4" alwaysOk).st.players 1 =
      lookupP [(1, ⟨"Al", 5, 6⟩)] 1 := by
  have h := C9_frame_conditions ⟨[1, 2], [(1, ⟨"Al", 5, 6⟩)]⟩ alwaysOk (fun _ => rfl)
  exact ⟨(h.1 "hello" none).1, (h.2 2 "MOVE,Bob,3,4").2 1 (by decide)⟩

/-- C10: `JOIN` stores its name stripped of surrounding whitespace while
`MOVE` stores its name field verbatim; `MOVE` coordinates tolerate
surrounding whitespace because `int()` strips it, so `"MOVE,Bob,1,2\n"`
succeeds with `y = 2`. -/
theorem C10_join_strips_move_verbatim (s : SState) (c : Conn) (ok : Conn → Bool)
    (dj dm raw nm xs ys : String) (x y : Int)
    (hok : ∀ cl, ok cl = true)
    (hj : pySplit dj = ["JOIN", raw])
    (hm : pySplit dm = ["MOVE", nm, xs, ys])
    (hx : pyInt xs = some x) (hy : pyInt ys = some y) :
    lookupP (handleLine s c dj ok).st.players c = some ⟨pyStrip raw, 0, 0⟩ ∧
    lookupP (handleLine s c dm ok).st.players c = some ⟨nm, x, y⟩ ∧
    lookupP (handleLine s c "MOVE,Bob,1,2\n" ok).st.players c = some ⟨"Bob", 1, 2⟩ := by
  refine ⟨?_, ?_, ?_⟩
  · rw [handleLine_join s c dj raw ok hj, broadcast_none_ok _ _ ok hok]
    exact lookupP_dictSet_self _ _ _
  · rw [handleLine_move s c dm nm xs ys x y ok hm hx hy, broadcast_none_ok _ _ ok hok]
    exact lookupP_dictSet_self _ _ _
  · rw [handleLine_move s c "MOVE,Bob,1,2\n" "Bob" "1" "2\n" 1 2 ok (by decide)
      (by decide) (by decide), broadcast_none_ok _ _ ok hok]
    exact lookupP_dictSet_self _ _ _

/-- Witness for C10: `JOIN, Al ` records the name `Al`, while
`MOVE, Al ,7,8` records the name ` Al ` with its spaces, and
`MOVE,Bob,1,2\n` parses `y = 2` despite the trailing newline. -/
theorem C10_witness :
    lookupP (handleLine ⟨[4], []⟩ 4 "JOIN, Al " alwaysOk).st.players 4 =
      some ⟨"Al", 0, 0⟩ ∧
    lookupP (handleLine ⟨[4], []⟩ 4 "MOVE, Al ,7,8" alwaysOk).st.players 4 =
      some ⟨" Al ", 7, 8⟩ ∧
    lookupP (handleLine ⟨[4], []⟩ 4 "MOVE,Bob,1,2\n" alwaysOk).st.players 4 =
      some ⟨"Bob", 1, 2⟩ :=
  C10_join_strips_move_verbatim ⟨[4], []⟩ 4 alwaysOk "JOIN, Al " "MOVE, Al ,7,8"
    " Al " " Al " "7" "8" 7 8 (fun _ => rfl) (by decide) (by decide) (by decide) (by decide)

theorem keys_dictSet_nodup (ps : List (Conn × Player)) (c : Conn) (p : Player)
    (hnd : (ps.map Prod.fst).Nodup) : ((dictSet ps c p).map Prod.fst).Nodup := by
  by_cases h : c ∈ ps.map Prod.fst
  · rw [keys_dictSet_mem _ _ _ h]
    exact hnd
  · rw [keys_dictSet_not_mem _ _ _ h]
    rw [List.nodup_append]
    exact ⟨hnd, List.nodup_singleton c, by simpa [List.disjoint_singleton] using h⟩

theorem count_key_dictSet (ps : List (Conn × Player)) (c : Conn) (p : Player)
    (hnd : (ps.map Prod.fst).Nodup) :
    ((dictSet ps c p).map Prod.fst).count c = 1 := by
  by_cases h : c ∈ ps.map Prod.fst
  · rw [keys_dictSet_mem _ _ _ h]
    exact count_nodup_eq_one _ _ hnd h
  · rw [keys_dictSet_not_mem _ _ _ h, List.count_append,
      List.count_eq_zero_of_not_mem h, List.count_singleton_self]

/-- A `MOVE` whose values are already the stored entry rewrites the entry
to itself and still emits the (unchanged) `UPDATE` broadcast. -/
theorem move_already_stored (s : SState) (c : Conn) (ok : Conn → Bool)
    (d2 nm xs2 ys2 : String) (x2 y2 : Int)
    (h2 : pySplit d2 = ["MOVE", nm, xs2, ys2])
    (hx2 : pyInt xs2 = some x2) (hy2 : pyInt ys2 = some y2)
    (hok : ∀ cl, ok cl = true)
    (hcur : lookupP s.players c = some ⟨nm, x2, y2⟩) :
    handleLine s c d2 ok =
      { st := s,
        sends := s.clients.map (fun cl => (cl, "UPDATE;" ++ serializePlayers s.players)),
        closed := [] } := by
  rw [handleLine_move s c d2 nm xs2 ys2 x2 y2 ok h2 hx2 hy2,
    dictSet_eq_of_lookup _ _ _ hcur, broadcast_none_ok _ _ ok hok]

/-- C8: from one connection, a second `MOVE` overwrites the first — after
`MOVE,<n>,<x1>,<y1>` then `MOVE,<n>,<x2>,<y2>` the table holds the second
position under exactly one entry for that connection, never both — and an
identical re-`MOVE` is idempotent on the player table while still emitting
an `UPDATE` broadcast of unchanged content to every client (duplicates are
not suppressed). -/
theorem C8_last_write_wins_and_idempotent (s : SState) (c : Conn) (ok : Conn → Bool)
    (d1 d2 nm xs1 ys1 xs2 ys2 : String) (x1 y1 x2 y2 : Int)
    (h1 : pySplit d1 = ["MOVE", nm, xs1, ys1])
    (hx1 : pyInt xs1 = some x1) (hy1 : pyInt ys1 = some y1)
    (h2 : pySplit d2 = ["MOVE", nm, xs2, ys2])
    (hx2 : pyInt xs2 = some x2) (hy2 : pyInt ys2 = some y2)
    (hok : ∀ cl, ok cl = true) (hnd : (s.players.map Prod.fst).Nodup) :
    lookupP (handleLine (handleLine s c d1 ok).st c d2 ok).st.players c =
      some ⟨nm, x2, y2⟩ ∧
    ((handleLine (handleLine s c d1 ok).st c d2 ok).st.players.map Prod.fst).count c = 1 ∧
    handleLine (handleLine (handleLine s c d1 ok).st c d2 ok).st c d2 ok =
      { st := (handleLine (handleLine s c d1 ok).st c d2 ok).st,
        sends := (handleLine (handleLine s c d1 ok).st c d2 ok).sends,
        closed := [] } ∧
    (handleLine (handleLine s c d1 ok).st c d2 ok).sends =
      (handleLine (handleLine s c d1 ok).st c d2 ok).st.clients.map
        (fun cl => (cl, "UPDATE;" ++
          serializePlayers (handleLine (handleLine s c d1 ok).st c d2 ok).st.players)) := by
  have e1 : handleLine s c d1 ok =
      broadcast { s with players := dictSet s.players c ⟨nm, x1, y1⟩ }
        ("UPDATE;" ++ serializePlayers (dictSet s.players c ⟨nm, x1, y1⟩)) none ok :=
    handleLine_move s c d1 nm xs1 ys1 x1 y1 ok h1 hx1 hy1
  rw [e1, broadcast_none_ok _ _ ok hok]
  have e2 : handleLine { s with players := dictSet s.players c ⟨nm, x1, y1⟩ } c d2 ok =
      broadcast { s with players := dictSet (dictSet s.players c ⟨nm, x1, y1⟩) c ⟨nm, x2, y2⟩ }
        ("UPDATE;" ++
          serializePlayers (dictSet (dictSet s.players c ⟨nm, x1, y1⟩) c ⟨nm, x2, y2⟩)) none ok :=
    handleLine_move _ c d2 nm xs2 ys2 x2 y2 ok h2 hx2 hy2
  rw [e2, broadcast_none_ok _ _ ok hok]
  have hlk : lookupP (dictSet (dictSet s.players c ⟨nm, x1, y1⟩) c ⟨nm, x2, y2⟩) c =
      some ⟨nm, x2, y2⟩ := lookupP_dictSet_self _ _ _
  refine ⟨hlk, ?_, ?_, rfl⟩
  · exact count_key_dictSet _ _ _ (keys_dictSet_nodup _ _ _ hnd)
  · exact move_already_stored _ c ok d2 nm xs2 ys2 x2 y2 h2 hx2 hy2 hok hlk

/-- Witness for C8: `MOVE,Bob,10,20` then `MOVE,Bob,15,-5` from connection
1 leaves exactly the entry `(15,-5)`; re-sending the second command keeps
the table identical while broadcasting the same `UPDATE` again. -/
theorem C8_witness :
    lookupP (handleLine (handleLine ⟨[1], []⟩ 1 "MOVE,Bob,10,20" alwaysOk).st
        1 "MOVE,Bob,15,-5" alwaysOk).st.players 1 = some ⟨"Bob", 15, -5⟩ ∧
    ((handleLine (handleLine ⟨[1], []⟩ 1 "MOVE,Bob,10,20" alwaysOk).st
        1 "MOVE,Bob,15,-5" alwaysOk).st.players.map Prod.fst).count 1 = 1 ∧
    handleLine (handleLine (handleLine ⟨[1], []⟩ 1 "MOVE,Bob,10,20" alwaysOk).st
        1 "MOVE,Bob,15,-5" alwaysOk).st 1 "MOVE,Bob,15,-5" alwaysOk =
      { st := (handleLine (handleLine ⟨[1], []⟩ 1 "MOVE,Bob,10,20" alwaysOk).st
          1 "MOVE,Bob,15,-5" alwaysOk).st,
        sends := (handleLine (handleLine ⟨[1], []⟩ 1 "MOVE,Bob,10,20" alwaysOk).st
          1 "MOVE,Bob,15,-5" alwaysOk).sends,
        closed := [] } :=
  have h := C8_last_write_wins_and_idempotent ⟨[1], []⟩ 1 alwaysOk
    "MOVE,Bob,10,20" "MOVE,Bob,15,-5" "Bob" "10" "20" "15" "-5" 10 20 15 (-5)
    (by decide) (by decide) (by decide) (by decide) (by decide) (by decide)
    (fun _ => rfl) (by decide)
  ⟨h.1, h.2.1, h.2.2.1⟩

theorem broadcastGo_clients_mono (msg : String) (excl : Option Conn) (ok : Conn → Bool)
    (l : List Conn) (s : SState) (x : Conn) (hx : x ∉ s.clients) :
    x ∉ (broadcastGo msg excl ok l s).st.clients := by
  induction l generalizing s with
  | nil => simpa [broadcastGo] using hx
  | cons cl rest ih =>
      rw [broadcastGo]
      split
      · exact ih s hx
      · split
        · exact ih s hx
        · exact ih _ (fun hmem => hx ((List.erase_sublist cl s.clients).subset hmem))

theorem broadcastGo_lookup_mono (msg : String) (excl : Option Conn) (ok : Conn → Bool)
    (l : List Conn) (s : SState) (x : Conn) (hx : lookupP s.players x = none) :
    lookupP (broadcastGo msg excl ok l s).st.players x = none := by
  induction l generalizing s with
  | nil => simpa [broadcastGo] using hx
  | cons cl rest ih =>
      rw [broadcastGo]
      split
      · exact ih s hx
      · split
        · exact ih s hx
        · apply ih
          show lookupP (removeKey s.players cl) x = none
          rw [lookupP_removeKey]
          split
          · rfl
          · exact hx

theorem broadcastGo_spec (msg : String) (excl : Option Conn) (ok : Conn → Bool)
    (l : List Conn) (s : SState) (cl : Conn)
    (hnd : s.clients.Nodup) (hcl : cl ∈ l) (hne : some cl ≠ excl) :
    (ok cl = true → (cl, msg) ∈ (broadcastGo msg excl ok l s).sends) ∧
    (ok cl = false → cl ∈ (broadcastGo msg excl ok l s).closed ∧
      cl ∉ (broadcastGo msg excl ok l s).st.clients ∧
      lookupP (broadcastGo msg excl ok l s).st.players cl = none) := by
  induction l generalizing s with
  | nil => cases hcl
  | cons a rest ih =>
      rw [broadcastGo]
      rcases List.mem_cons.mp hcl with rfl | hcl2
      · have hb : (some cl == excl) = false := beq_eq_false_iff_ne.mpr hne
        simp only [hb, Bool.false_eq_true, if_false]
        by_cases hoc : ok cl = true
        · simp only [hoc, if_true]
          constructor
          · intro _
            exact List.mem_cons_self _ _
          · intro hf
            cases hf
        · have hof : ok cl = false := by simpa using hoc
          simp only [hof, Bool.false_eq_true, if_false]
          constructor
          · intro ht
            exact ht.elim
          · intro _
            refine ⟨List.mem_cons_self _ _, ?_, ?_⟩
            · apply broadcastGo_clients_mono
              show cl ∉ s.clients.erase cl
              intro hmem
              exact absurd ((hnd.mem_erase_iff).mp hmem).1 (by simp)
            · apply broadcastGo_lookup_mono
              show lookupP (removeKey s.players cl) cl = none
              rw [lookupP_removeKey]
              simp
      · split
        · exact ih s hnd hcl2
        · split
          · have h := ih s hnd hcl2
            exact ⟨fun ht => List.mem_cons_of_mem _ (h.1 ht), h.2⟩
          · have hnd2 : (s.clients.erase a).Nodup := hnd.sublist (List.erase_sublist a s.clients)
            have h := ih ⟨s.clients.erase a, removeKey s.players a⟩ hnd2 hcl2
            exact ⟨h.1, fun hf =>
              ⟨List.mem_cons_of_mem _ (h.2 hf).1, (h.2 hf).2.1, (h.2 hf).2.2⟩⟩

/-- C3: `broadcast` attempts delivery to every registered connection other
than the excluded one; a connection whose send fails is removed from the
connection list, its player entry (if any) deleted, and closed, while
connections whose sends succeed still receive the message — the operation
is a total function and surfaces no error to its caller. -/
theorem C3_broadcast_removes_failed_peers (s : SState) (msg : String)
    (excl : Option Conn) (ok : Conn → Bool) (cl : Conn)
    (hnd : s.clients.Nodup) (hcl : cl ∈ s.clients) (hne : some cl ≠ excl) :
    (ok cl = true → (cl, msg) ∈ (broadcast s msg excl ok).sends) ∧
    (ok cl = false → cl ∈ (broadcast s msg excl ok).closed ∧
      cl ∉ (broadcast s msg excl ok).st.clients ∧
      lookupP (broadcast s msg excl ok).st.players cl = none) :=
  broadcastGo_spec msg excl ok s.clients s cl hnd hcl hne

/-- Witness for C3: with three clients where only socket 2 fails, the
broadcast still reaches 1 and 3, and 2 is closed, deregistered, and its
player entry dropped. -/
theorem C3_witness :
    ((1, ("m" : String)) ∈
      (broadcast ⟨[1, 2, 3], [(2, ⟨"B", 0, 0⟩)]⟩ "m" none failTwo).sends) ∧
    (2 ∈ (broadcast ⟨[1, 2, 3], [(2, ⟨"B", 0, 0⟩)]⟩ "m" none failTwo).closed ∧
      2 ∉ (broadcast ⟨[1, 2, 3], [(2, ⟨"B", 0, 0⟩)]⟩ "m" none failTwo).st.clients ∧
      lookupP (broadcast ⟨[1, 2, 3], [(2, ⟨"B", 0, 0⟩)]⟩ "m" none failTwo).st.players 2 =
        none) := by
  constructor
  · exact (C3_broadcast_removes_failed_peers ⟨[1, 2, 3], [(2, ⟨"B", 0, 0⟩)]⟩ "m" none
      failTwo 1 (by decide) (by decide) (by decide)).1 rfl
  · exact (C3_broadcast_removes_failed_peers ⟨[1, 2, 3], [(2, ⟨"B", 0, 0⟩)]⟩ "m" none
      failTwo 2 (by decide) (by decide) (by decide)).2 rfl

theorem teardown_some (s : SState) (c : Conn) (ok : Conn → Bool) (p : Player)
    (hl : lookupP s.players c = some p) :
    teardown s c ok =
      { st := (broadcast ⟨s.clients.erase c, removeKey s.players c⟩
          ("LEFT," ++ p.name) none ok).st,
        sends := (broadcast ⟨s.clients.erase c, removeKey s.players c⟩
          ("LEFT," ++ p.name) none ok).sends,
        closed := c :: (broadcast ⟨s.clients.erase c, removeKey s.players c⟩
          ("LEFT," ++ p.name) none ok).closed } := by
  rw [teardown, hl]

theorem teardown_none (s : SState) (c : Conn) (ok : Conn → Bool)
    (hl : lookupP s.players c = none) :
    teardown s c ok = ⟨⟨s.clients.erase c, removeKey s.players c⟩, [], [c]⟩ := by
  rw [teardown, hl]

/-- C4 (amended): at read-loop termination the handler removes the
connection from the connection list (a no-op when absent), pops its player
entry — so the entry keyed by that connection contributes nothing to any
later `UPDATE` payload — closes it, and (all sends succeeding) broadcasts
`LEFT,<name>` to exactly the remaining connections if and only if the
connection held a player entry; a different connection bearing the same
name may still appear in later payloads. -/
theorem C4_amended_teardown (s : SState) (c : Conn) (ok : Conn → Bool)
    (hok : ∀ cl, ok cl = true) :
    (teardown s c ok).st.clients = s.clients.erase c ∧
    (teardown s c ok).st.players = removeKey s.players c ∧
    lookupP (teardown s c ok).st.players c = none ∧
    c ∈ (teardown s c ok).closed ∧
    (c ∉ s.clients → (teardown s c ok).st.clients = s.clients) ∧
    (∀ p, lookupP s.players c = some p →
      (teardown s c ok).sends =
        (s.clients.erase c).map (fun k => (k, "LEFT," ++ p.name))) ∧
    (lookupP s.players c = none → (teardown s c ok).sends = []) := by
  cases hl : lookupP s.players c with
  | none =>
      rw [teardown_none s c ok hl]
      refine ⟨rfl, rfl, ?_, List.mem_singleton_self c, fun habs => ?_, ?_, fun _ => rfl⟩
      · rw [lookupP_removeKey]
        simp
      · exact List.erase_of_not_mem habs
      · intro p hp
        cases hp
  | some q =>
      rw [teardown_some s c ok q hl, broadcast_none_ok _ _ ok hok]
      refine ⟨rfl, rfl, ?_, List.mem_cons_self c _, fun habs => ?_, ?_, ?_⟩
      · rw [lookupP_removeKey]
        simp
      · exact List.erase_of_not_mem habs
      · intro p hp
        injection hp with hp
        rw [hp]
      · intro hp
        cases hp

/-- Witness for C4 (amended): connection 2 (player `B`) disconnects from a
two-client server; only client 1 gets `LEFT,B` and 2's entry is gone. -/
theorem C4_witness :
    (teardown ⟨[1, 2], [(1, ⟨"Al", 0, 0⟩), (2, ⟨"B", 1, 1⟩)]⟩ 2 alwaysOk).st.clients =
      [1, 2].erase 2 ∧
    lookupP (teardown ⟨[1, 2], [(1, ⟨"Al", 0, 0⟩), (2, ⟨"B", 1, 1⟩)]⟩ 2 alwaysOk).st.players 2 =
      none ∧
    (teardown ⟨[1, 2], [(1, ⟨"Al", 0, 0⟩), (2, ⟨"B", 1, 1⟩)]⟩ 2 alwaysOk).sends =
      ([1, 2].erase 2).map (fun k => (k, "LEFT," ++ "B")) := by
  have h := C4_amended_teardown ⟨[1, 2], [(1, ⟨"Al", 0, 0⟩), (2, ⟨"B", 1, 1⟩)]⟩ 2
    alwaysOk (fun _ => rfl)
  exact ⟨h.1, h.2.2.1, h.2.2.2.2.2.1 ⟨"B", 1, 1⟩ (by decide)⟩

/-- Counterexample for C4 as stated: two connections both join as `Bob`;
when connection 2 disconnects, `LEFT,Bob` is broadcast, yet the very next
`UPDATE` payload still carries the name `Bob` (from connection 1), so the
departed name does NOT disappear from subsequent `UPDATE` payloads. -/
theorem C4_counterexample :
    (teardown
        (handleLine (handleLine ⟨[1, 2], []⟩ 1 "JOIN,Bob" alwaysOk).st
          2 "JOIN,Bob" alwaysOk).st
        2 alwaysOk).sends = [(1, "LEFT,Bob")] ∧
    (handleLine
        (teardown
          (handleLine (handleLine ⟨[1, 2], []⟩ 1 "JOIN,Bob" alwaysOk).st
            2 "JOIN,Bob" alwaysOk).st
          2 alwaysOk).st
        1 "MOVE,Bob,5,5" alwaysOk).sends = [(1, "UPDATE;Bob,5,5")] := by
  decide

/-- Registry state plus the set of connections whose `handle_client`
thread is still running.  A handler keeps reading (and can still process a
buffered line) even after `broadcast` has removed its socket from
`self.clients`, so line handling is guarded by handler liveness, not by
registry membership. -/
structure Sys where
  st : SState
  handlers : List Conn
deriving Repr, DecidableEq

/-- States reachable by the server: start empty; accept a fresh socket
(registered and handed to a new handler thread); a live handler processes
one received chunk; a live handler's read loop ends and it tears down. -/
inductive Reach : Sys → Prop where
  | init : Reach ⟨⟨[], []⟩, []⟩
  | accept (σ : Sys) (c : Conn) : Reach σ → c ∉ σ.st.clients → c ∉ σ.handlers →
      lookupP σ.st.players c = none →
      Reach ⟨⟨σ.st.clients ++ [c], σ.st.players⟩, σ.handlers ++ [c]⟩
  | line (σ : Sys) (c : Conn) (data : String) (ok : Conn → Bool) : Reach σ →
      c ∈ σ.handlers → Reach ⟨(handleLine σ.st c data ok).st, σ.handlers⟩
  | disconnect (σ : Sys) (c : Conn) (ok : Conn → Bool) : Reach σ →
      c ∈ σ.handlers → Reach ⟨(teardown σ.st c ok).st, σ.handlers.erase c⟩

/-- The restricted machine in which a line is only ever handled for a
connection still present in the connection set. -/
inductive ReachSync : SState → Prop where
  | init : ReachSync ⟨[], []⟩
  | accept (s : SState) (c : Conn) : ReachSync s →
      ReachSync ⟨s.clients ++ [c], s.players⟩
  | line (s : SState) (c : Conn) (data : String) (ok : Conn → Bool) : ReachSync s →
      c ∈ s.clients → ReachSync (handleLine s c data ok).st
  | disconnect (s : SState) (c : Conn) (ok : Conn → Bool) : ReachSync s →
      ReachSync (teardown s c ok).st

/-- The registry invariant: every player-table key is a registered
connection. -/
def RegInv (s : SState) : Prop :=
  ∀ kv ∈ s.players, kv.1 ∈ s.clients

theorem removeKey_erase_inv (s : SState) (a : Conn) (hinv : RegInv s) :
    RegInv ⟨s.clients.erase a, removeKey s.players a⟩ := by
  intro kv hkv
  have h1 : kv ∈ s.players ∧ (kv.1 != a) = true := List.mem_filter.mp hkv
  have h2 : kv.1 ≠ a := by simpa using h1.2
  exact (List.mem_erase_of_ne h2).mpr (hinv kv h1.1)

theorem broadcastGo_inv (msg : String) (excl : Option Conn) (ok : Conn → Bool)
    (l : List Conn) (s : SState) (hinv : RegInv s) :
    RegInv (broadcastGo msg excl ok l s).st := by
  induction l generalizing s with
  | nil => simpa [broadcastGo] using hinv
  | cons a rest ih =>
      rw [broadcastGo]
      split
      · exact ih s hinv
      · split
        · exact ih s hinv
        · exact ih _ (removeKey_erase_inv s a hinv)

theorem handleLine_inv (s : SState) (c : Conn) (data : String) (ok : Conn → Bool)
    (hinv : RegInv s) (hc : c ∈ s.clients) : RegInv (handleLine s c data ok).st := by
  rcases handleLine_shape s c data ok with h | ⟨p, msg, h⟩
  · rw [h]
    exact hinv
  · rw [h]
    apply broadcastGo_inv
    intro kv hkv
    rcases mem_dictSet _ _ _ _ hkv with h1 | h1
    · exact h1 ▸ hc
    · exact hinv kv h1

theorem teardown_inv (s : SState) (c : Conn) (ok : Conn → Bool)
    (hinv : RegInv s) : RegInv (teardown s c ok).st := by
  cases hl : lookupP s.players c with
  | none =>
      rw [teardown_none s c ok hl]
      exact removeKey_erase_inv s c hinv
  | some q =>
      rw [teardown_some s c ok q hl]
      exact broadcastGo_inv _ _ _ _ _ (removeKey_erase_inv s c hinv)

/-- Counterexample for C6 as stated: conn 2 joins; while conn 1's `JOIN`
is broadcast, the send to 2 fails, so 2 is deregistered; 2's still-running
handler then processes a buffered `JOIN,C`, re-creating a player entry for
a connection no longer in the connection set.  The invariant is violated
in a reachable state. -/
theorem C6_counterexample :
    ∃ σ : Sys, Reach σ ∧ ∃ kv ∈ σ.st.players, kv.1 ∉ σ.st.clients := by
  refine ⟨_, Reach.line _ 2 "JOIN,C" alwaysOk
    (Reach.line _ 1 "JOIN,B" failTwo
      (Reach.line _ 2 "JOIN,A" alwaysOk
        (Reach.accept _ 2
          (Reach.accept _ 1 Reach.init (by decide) (by decide) (by decide))
          (by decide) (by decide) (by decide))
        (by decide))
      (by decide))
    (by decide), ?_⟩
  decide

/-- C6 (amended): the invariant "every player-table key is in the
connection set" holds in every state of the restricted machine, i.e. it is
preserved by accept, by `JOIN`/`MOVE` handling for a connection still in
the connection set, by removal of failed peers during broadcast, and by
disconnect teardown; it can be broken only by a handler that processes a
line after broadcast already deregistered its connection. -/
theorem C6_amended_invariant (s : SState) (h : ReachSync s) : RegInv s := by
  induction h with
  | init => intro kv hkv; cases hkv
  | accept s0 c _ ih => exact fun kv hkv => List.mem_append_left _ (ih kv hkv)
  | line s0 c data ok _ hc ih => exact handleLine_inv s0 c data ok ih hc
  | disconnect s0 c ok _ ih => exact teardown_inv s0 c ok ih

/-- Witness for C6 (amended): after accepting socket 5 and handling its
`JOIN,Al`, the single player-table key 5 is indeed registered. -/
theorem C6_witness :
    (5, ({ name := "Al", x := 0, y := 0 } : Player)).1 ∈
      (handleLine ⟨[] ++ [5], []⟩ 5 "JOIN,Al" alwaysOk).st.clients :=
  C6_amended_invariant _
    (ReachSync.line ⟨[] ++ [5], []⟩ 5 "JOIN,Al" alwaysOk
      (ReachSync.accept ⟨[], []⟩ 5 ReachSync.init) (by decide))
    (5, ⟨"Al", 0, 0⟩) (by decide)

/-- Observable lock / I/O events of `Server.broadcast`. -/
inductive LockEv where
  | acquire
  | send (c : Conn)
  | close (c : Conn)
  | release
deriving Repr, DecidableEq

/-- The per-connection events of the `for client in self.clients[:]` loop:
each non-excluded client gets a `sendall` attempt (`send`), and a failing
one is additionally closed. -/
def broadcastBodyEv (excl : Option Conn) (ok : Conn → Bool) : List Conn → List LockEv
  | [] => []
  | cl :: rest =>
      if some cl == excl then broadcastBodyEv excl ok rest
      else if ok cl then LockEv.send cl :: broadcastBodyEv excl ok rest
      else LockEv.send cl :: LockEv.close cl :: broadcastBodyEv excl ok rest

/-- The event trace of `Server.broadcast`: the whole loop body — snapshot
iteration and every `sendall` — sits inside `with self.lock:`, so the
trace is acquire, then the per-connection events, then release. -/
def broadcastEvents (s : SState) (excl : Option Conn) (ok : Conn → Bool) : List LockEv :=
  LockEv.acquire :: (broadcastBodyEv excl ok s.clients ++ [LockEv.release])

/-- The connections whose `sendall` is attempted while the lock is held,
scanning the trace with the current lock state. -/
def sendsWhileLocked : Bool → List LockEv → List Conn
  | _, [] => []
  | _, LockEv.acquire :: r => sendsWhileLocked true r
  | _, LockEv.release :: r => sendsWhileLocked false r
  | held, LockEv.send c :: r =>
      if held then c :: sendsWhileLocked held r else sendsWhileLocked held r
  | held, LockEv.close _ :: r => sendsWhileLocked held r

/-- The connections whose `sendall` is attempted while the lock is NOT
held. -/
def sendsWhileUnlocked : Bool → List LockEv → List Conn
  | _, [] => []
  | _, LockEv.acquire :: r => sendsWhileUnlocked true r
  | _, LockEv.release :: r => sendsWhileUnlocked false r
  | held, LockEv.send c :: r =>
      if held then sendsWhileUnlocked held r else c :: sendsWhileUnlocked held r
  | held, LockEv.close _ :: r => sendsWhileUnlocked held r

theorem sendsWhileLocked_body (excl : Option Conn) (ok : Conn → Bool) (l : List Conn) :
    sendsWhileLocked true (broadcastBodyEv excl ok l ++ [LockEv.release]) =
      l.filter (fun cl => some cl != excl) := by
  induction l with
  | nil => rfl
  | cons cl rest ih =>
      rw [broadcastBodyEv]
      by_cases h : (some cl == excl) = true
      · have hb : (some cl != excl) = false := by simp [bne, h]
        simp only [h, if_true, List.filter_cons, hb, Bool.false_eq_true, if_false, ih]
      · have h2 : (some cl == excl) = false := by simpa using h
        have hb : (some cl != excl) = true := by simp [bne, h2]
        by_cases hc : ok cl = true
        · simp only [h2, Bool.false_eq_true, if_false, hc, if_true, List.cons_append,
            sendsWhileLocked, List.filter_cons, hb, ih]
        · have hc2 : ok cl = false := by simpa using hc
          simp only [h2, Bool.false_eq_true, if_false, hc2, List.cons_append,
            sendsWhileLocked, List.filter_cons, hb, if_true, ih]

theorem sendsWhileUnlocked_body (excl : Option Conn) (ok : Conn → Bool) (l : List Conn) :
    sendsWhileUnlocked true (broadcastBodyEv excl ok l ++ [LockEv.release]) = [] := by
  induction l with
  | nil => rfl
  | cons cl rest ih =>
      rw [broadcastBodyEv]
      by_cases h : (some cl == excl) = true
      · simp only [h, if_true, ih]
      · have h2 : (some cl == excl) = false := by simpa using h
        by_cases hc : ok cl = true
        · simp only [h2, Bool.false_eq_true, if_false, hc, if_true, List.cons_append,
            sendsWhileUnlocked, ih]
        · have hc2 : ok cl = false := by simpa using hc
          simp [h2, hc2, sendsWhileUnlocked, ih]

/-- Counterexample for C7 as stated: already with a single healthy client,
the `sendall` happens between the lock acquire and its release — the
trace is `[acquire, send 7, release]` — so it is false that the lock is
never held across a network write. -/
theorem C7_counterexample :
    broadcastEvents ⟨[7], []⟩ none alwaysOk =
      [LockEv.acquire, LockEv.send 7, LockEv.release] ∧
    sendsWhileLocked false (broadcastEvents ⟨[7], []⟩ none alwaysOk) ≠ [] := by
  decide

/-- C7 (amended): the registry lock IS held across the network writes:
`broadcast` iterates a copy of the client list and performs every
per-connection `sendall` attempt inside `with self.lock:`, so no send
happens outside the lock and every non-excluded registered connection is
written to while the lock is held. -/
theorem C7_amended_lock_held_across_sends (s : SState) (excl : Option Conn)
    (ok : Conn → Bool) :
    sendsWhileUnlocked false (broadcastEvents s excl ok) = [] ∧
    sendsWhileLocked false (broadcastEvents s excl ok) =
      s.clients.filter (fun cl => some cl != excl) := by
  constructor
  · show sendsWhileUnlocked true (broadcastBodyEv excl ok s.clients ++ [LockEv.release]) = []
    exact sendsWhileUnlocked_body excl ok s.clients
  · show sendsWhileLocked true (broadcastBodyEv excl ok s.clients ++ [LockEv.release]) =
      s.clients.filter (fun cl => some cl != excl)
    exact sendsWhileLocked_body excl ok s.clients

end NetGame
